import Mathlib

/-!
Verification development for the session parsing and analysis core of
`claude-session-export` (package `internal/session`: `types.go`, `parse.go`,
`discover.go`).

The Go code decodes JSON with `encoding/json`; we embed JSON values as an
inductive `Json` type (numbers as integers, which covers every input the
claims exercise) and translate each Go `json.Unmarshal` target struct into a
decoder `Json → Option _` following Go's semantics: objects are required for
structs, absent keys leave the zero value, `null` leaves the target unchanged
(hence succeeds), a type-mismatched value fails the whole unmarshal, and for
duplicate keys the last value wins.  Go strings are modelled as Lean `String`
(byte indices coincide with character indices on the ASCII data the claims
use), and `time.Time` is abstracted: the RFC3339 parse of `parseMessages`
is an arbitrary function `tparse : String → Option String` over which all
parsing theorems are universally quantified (`none` is the zero `time.Time`;
timestamp parsing never fails a message, so no claim depends on it).
-/

inductive Json where
  | null : Json
  | bool (b : Bool) : Json
  | num (n : Int) : Json
  | str (s : String) : Json
  | arr (elems : List Json) : Json
  | obj (kvs : List (String × Json)) : Json

/-- Key lookup in a decoded JSON object: Go's `encoding/json` lets the last
occurrence of a duplicated key win. -/
def jlookup (kvs : List (String × Json)) (k : String) : Option Json :=
  kvs.foldl (fun acc p => if p.1 = k then some p.2 else acc) none

/-- `TokenUsage` from `types.go`. -/
structure TokenUsage where
  inputTokens : Int := 0
  outputTokens : Int := 0
  cacheReadTokens : Int := 0
  cacheWriteTokens : Int := 0


/-- `ImageSource` from `types.go`. -/
structure ImageSource where
  type : String := ""
  mediaType : String := ""
  data : String := ""


/-- `ContentBlock` from `types.go`.  `input` is a `json.RawMessage` (absent =
`none`); `content` is an `interface{}` (both absent and JSON `null` give a nil
interface, modelled as `none`). -/
structure ContentBlock where
  type : String := ""
  text : String := ""
  name : String := ""
  id : String := ""
  toolUseId : String := ""
  input : Option Json := none
  content : Option Json := none
  isError : Bool := false
  source : Option ImageSource := none


/-- `NestedMessage` from `types.go` (the nested `message` object of the new
Claude Code format). -/
structure NestedMessage where
  role : String := ""
  rawContent : Option Json := none
  model : String := ""
  usage : Option TokenUsage := none


/-- `Message` from `types.go`.  `rawContent` is the raw JSON under `content`
(`none` when the key is absent), `content` is the parsed block list filled in
by `parseMessages`, `timestamp` is the parsed time (`none` = zero value). -/
structure Message where
  type : String := ""
  role : String := ""
  content : List ContentBlock := []
  rawContent : Option Json := none
  timestamp : Option String := none
  rawTimestamp : String := ""
  nestedMessage : Option NestedMessage := none
  cwd : String := ""
  gitBranch : String := ""
  version : String := ""
  model : String := ""
  usage : Option TokenUsage := none


/-- `Session` from `types.go` (the derived `Metadata` field is out of scope). -/
structure Session where
  messages : List Message := []


/-- `MessageEntry` from `types.go`. -/
structure MessageEntry where
  role : String := ""
  content : List ContentBlock := []
  timestamp : Option String := none
  model : String := ""
  usage : Option TokenUsage := none


/-- `Conversation` from `types.go`. -/
structure Conversation where
  userText : String := ""
  timestamp : Option String := none
  messages : List MessageEntry := []
  isContinuation : Bool := false


/-- `ToolStats` from `types.go`. -/
structure ToolStats where
  bashCount : Nat := 0
  readCount : Nat := 0
  writeCount : Nat := 0
  editCount : Nat := 0
  globCount : Nat := 0
  grepCount : Nat := 0
  otherCount : Nat := 0


/-- `IndexItem` from `types.go` (the fields `ExtractCommits` fills). -/
structure IndexItem where
  type : String := ""
  timestamp : Option String := none
  text : String := ""
  pageNum : Nat := 0
  messageId : String := ""
  commitHash : String := ""
  commitMessage : String := ""
  repoUrl : String := ""


/-! ### Field decoders (Go `encoding/json` unmarshalling semantics) -/

/-- Unmarshal a JSON value sitting under key `k` into a `string` field:
absent or `null` leaves the zero value `""`; a non-string fails. -/
def getStr (kvs : List (String × Json)) (k : String) : Option String :=
  match jlookup kvs k with
  | none => some ""
  | some (.str s) => some s
  | some .null => some ""
  | some _ => none

/-- Unmarshal into a `bool` field. -/
def getBool (kvs : List (String × Json)) (k : String) : Option Bool :=
  match jlookup kvs k with
  | none => some false
  | some (.bool b) => some b
  | some .null => some false
  | some _ => none

/-- Unmarshal into an `int` field. -/
def getInt (kvs : List (String × Json)) (k : String) : Option Int :=
  match jlookup kvs k with
  | none => some 0
  | some (.num n) => some n
  | some .null => some 0
  | some _ => none

/-- Unmarshal into a `*TokenUsage` field: absent and `null` give nil. -/
def getUsage (kvs : List (String × Json)) (k : String) : Option (Option TokenUsage) :=
  match jlookup kvs k with
  | none => some none
  | some .null => some none
  | some (.obj uk) => do
      let i ← getInt uk "input_tokens"
      let o ← getInt uk "output_tokens"
      let cr ← getInt uk "cache_read_input_tokens"
      let cw ← getInt uk "cache_creation_input_tokens"
      some (some ⟨i, o, cr, cw⟩)
  | some _ => none

/-- Unmarshal into the `*ImageSource` field `source`. -/
def getSource (kvs : List (String × Json)) : Option (Option ImageSource) :=
  match jlookup kvs "source" with
  | none => some none
  | some .null => some none
  | some (.obj sk) => do
      let ty ← getStr sk "type"
      let mt ← getStr sk "media_type"
      let dt ← getStr sk "data"
      some (some ⟨ty, mt, dt⟩)
  | some _ => none

/-- Unmarshal one JSON value into a `ContentBlock` (`null` leaves the zero
struct, anything other than an object fails). -/
def decodeContentBlock (j : Json) : Option ContentBlock :=
  match j with
  | .null => some {}
  | .obj kvs => do
      let ty ← getStr kvs "type"
      let tx ← getStr kvs "text"
      let nm ← getStr kvs "name"
      let idv ← getStr kvs "id"
      let tu ← getStr kvs "tool_use_id"
      let ie ← getBool kvs "is_error"
      let src ← getSource kvs
      let ct := match jlookup kvs "content" with
        | some .null => none
        | v => v
      some { type := ty, text := tx, name := nm, id := idv, toolUseId := tu,
             input := jlookup kvs "input", content := ct, isError := ie, source := src }
  | _ => none

/-- Unmarshal into the `*NestedMessage` field `message`. -/
def getNested (kvs : List (String × Json)) : Option (Option NestedMessage) :=
  match jlookup kvs "message" with
  | none => some none
  | some .null => some none
  | some (.obj nk) => do
      let role ← getStr nk "role"
      let model ← getStr nk "model"
      let usage ← getUsage nk "usage"
      some (some { role := role, rawContent := jlookup nk "content",
                   model := model, usage := usage })
  | some _ => none

/-- Unmarshal one JSON value into a `Message` (`json.Unmarshal(line, &msg)`).
`null` leaves the zero struct; anything other than an object fails. -/
def decodeMessage (j : Json) : Option Message :=
  match j with
  | .null => some {}
  | .obj kvs => do
      let ty ← getStr kvs "type"
      let role ← getStr kvs "role"
      let ts ← getStr kvs "timestamp"
      let nested ← getNested kvs
      let cwd ← getStr kvs "cwd"
      let gb ← getStr kvs "gitBranch"
      let ver ← getStr kvs "version"
      some { type := ty, role := role, rawContent := jlookup kvs "content",
             rawTimestamp := ts, nestedMessage := nested,
             cwd := cwd, gitBranch := gb, version := ver }
  | _ => none

/-- Unmarshal into `[]Message` (used for the bare-array shape; `null` gives a
nil slice). -/
def decodeMessageArray (j : Json) : Option (List Message) :=
  match j with
  | .null => some []
  | .arr xs => xs.mapM decodeMessage
  | _ => none

/-- Unmarshal the whole input into the `Session` struct
(`json.Unmarshal(data, &session)` followed by reading `session.Messages`). -/
def decodeSessionObj (j : Json) : Option (List Message) :=
  match j with
  | .null => some []
  | .obj kvs =>
      match jlookup kvs "messages" with
      | none => some []
      | some .null => some []
      | some (.arr xs) => xs.mapM decodeMessage
      | some _ => none
  | _ => none

/-! ### `parse.go`: content and message finishing -/

/-- `parseContent` from `parse.go`: empty raw (absent key) gives nil content;
a string unmarshal is tried first (JSON `null` also succeeds there, leaving
the zero string); then an array of content blocks; anything else errors. -/
def parseContent (raw : Option Json) : Except Unit (List ContentBlock) :=
  match raw with
  | none => .ok []
  | some (.str s) => .ok [{ type := "text", text := s }]
  | some .null => .ok [{ type := "text", text := "" }]
  | some (.arr xs) =>
      match xs.mapM decodeContentBlock with
      | some blocks => .ok blocks
      | none => .error ()
  | some _ => .error ()

/-- The per-message body of `parseMessages`: fill `timestamp` (only when the
raw string is nonempty and `tparse` succeeds; failures leave the zero value)
and `content` (whose failure aborts the whole parse). -/
def finishMsg (tparse : String → Option String) (m : Message) : Except Unit Message :=
  match parseContent m.rawContent with
  | .error _ => .error ()
  | .ok c =>
      .ok { m with
            timestamp := if m.rawTimestamp ≠ "" then tparse m.rawTimestamp else none,
            content := c }

/-- `parseMessages` from `parse.go`, acting on the message list: process the
messages in order and stop at the first content-parse error. -/
def parseMessages (tparse : String → Option String) :
    List Message → Except Unit (List Message)
  | [] => .ok []
  | m :: rest =>
      match finishMsg tparse m with
      | .error e => .error e
      | .ok m' =>
          match parseMessages tparse rest with
          | .error e => .error e
          | .ok ms => .ok (m' :: ms)

/-! ### `parse.go`: format detection and the two decoding modes

The raw input is abstracted by what the code observes of it: the newline-split
line list (each line is blank after trimming, fails to parse as JSON — in
which case we record its first non-whitespace character — or parses to a JSON
value), together with the result of parsing the entire byte string as one
JSON document (`none` when it is not valid JSON). -/

inductive JLine where
  | blank : JLine
  | badJson (firstChar : Char) : JLine
  | json (j : Json) : JLine

/-- The raw bytes, as observed by `Parse`/`isJSONL`. -/
structure RawData where
  lines : List JLine
  whole : Option Json

def JLine.isBlank : JLine → Bool
  | .blank => true
  | _ => false

/-- Whether a (trimmed) line's first character is `{`.  A line that parses as
JSON starts with `{` exactly when its value is an object. -/
def JLine.startsBrace : JLine → Bool
  | .blank => false
  | .badJson c => c = '{'
  | .json (.obj _) => true
  | .json _ => false

/-- Whether a (trimmed) line's first character is `[`. -/
def JLine.startsBracket : JLine → Bool
  | .blank => false
  | .badJson c => c = '['
  | .json (.arr _) => true
  | .json _ => false

/-- The quick probe of `isJSONL`: does the whole input unmarshal into
`struct { Messages json.RawMessage }` with a nonempty `Messages`?  That holds
exactly when the input is one JSON object carrying a `messages` key (any
value, `null` included, makes the raw field nonempty). -/
def probeMessages (whole : Option Json) : Bool :=
  match whole with
  | some (.obj kvs) => (jlookup kvs "messages").isSome
  | _ => false

/-- `isJSONL` from `parse.go`. -/
def isJSONL (lines : List JLine) (whole : Option Json) : Bool :=
  match lines.find? (fun l => !l.isBlank) with
  | none => lines.countP JLine.startsBrace > 1
  | some l =>
      if l.startsBracket then false
      else if l.startsBrace && probeMessages whole then false
      else lines.countP JLine.startsBrace > 1

/-- The two skip tests of `parseJSONL`'s loop on one decoded line: `none`
when the unmarshal failed or the entry's `type` is set and is not
`"message"`. -/
def acceptMsg : Option Message → Option Message
  | none => none
  | some m => if m.type ≠ "" && m.type ≠ "message" then none else some m

/-- The scanning loop of `parseJSONL`: skip blank lines, skip lines that fail
to unmarshal into `Message`, skip entries whose `type` is set and is not
`"message"`. -/
def collectMsgs : List JLine → List Message
  | [] => []
  | .blank :: rest => collectMsgs rest
  | .badJson _ :: rest => collectMsgs rest
  | .json j :: rest =>
      match acceptMsg (decodeMessage j) with
      | none => collectMsgs rest
      | some m => m :: collectMsgs rest

/-- `parseJSONL` from `parse.go`. -/
def parseJSONL (tparse : String → Option String) (lines : List JLine) :
    Except Unit Session :=
  match parseMessages tparse (collectMsgs lines) with
  | .error e => .error e
  | .ok msgs => .ok { messages := msgs }

/-- `parseJSON` from `parse.go`: try the session-object shape; when that
errors or yields zero messages, try the bare array; fail when the array
unmarshal fails. -/
def parseJSON (tparse : String → Option String) (whole : Option Json) :
    Except Unit Session :=
  let tryArr : Json → Except Unit Session := fun j =>
    match decodeMessageArray j with
    | none => .error ()
    | some msgs =>
        match parseMessages tparse msgs with
        | .error e => .error e
        | .ok ms => .ok { messages := ms }
  match whole with
  | none => .error ()
  | some j =>
      match decodeSessionObj j with
      | some msgs =>
          if msgs.isEmpty then tryArr j
          else
            match parseMessages tparse msgs with
            | .error e => .error e
            | .ok ms => .ok { messages := ms }
      | none => tryArr j

/-- `Parse` from `parse.go`: trim, return the empty session on empty input,
dispatch on `isJSONL`. -/
def Parse (tparse : String → Option String) (d : RawData) : Except Unit Session :=
  if d.lines.all JLine.isBlank then .ok {}
  else if isJSONL d.lines d.whole then parseJSONL tparse d.lines
  else parseJSON tparse d.whole

/-! ### `parse.go`: text extraction and conversation grouping -/

/-- `ExtractText` from `parse.go`: join the nonempty `text`-type blocks. -/
def ExtractText (m : Message) : String :=
  String.intercalate "\n"
    ((m.content.filter (fun b => b.type == "text" && b.text != "")).map (fun b => b.text))

/-- The `MessageEntry` that `GroupConversations` builds from a message
(`Model`/`Usage` are left at their zero values by the Go code). -/
def toEntry (m : Message) : MessageEntry :=
  { role := m.role, content := m.content, timestamp := m.timestamp }

/-- Seeding a conversation at a user message. -/
def newConv (m : Message) : Conversation :=
  { userText := ExtractText m, timestamp := m.timestamp, messages := [toEntry m] }

/-- Appending a non-user message to the open conversation. -/
def appendConv (c : Conversation) (m : Message) : Conversation :=
  { c with messages := c.messages ++ [toEntry m] }

/-- Closing the accumulator (`if current != nil { append }`). -/
def closeCur : Option Conversation → List Conversation
  | none => []
  | some c => [c]

/-- The loop of `GroupConversations`, carrying the open accumulator. -/
def groupGo : List Message → Option Conversation → List Conversation
  | [], cur => closeCur cur
  | m :: rest, cur =>
      if m.role = "user" then closeCur cur ++ groupGo rest (some (newConv m))
      else groupGo rest (cur.map (fun c => appendConv c m))

/-- `GroupConversations` from `parse.go`. -/
def GroupConversations (s : Session) : List Conversation :=
  groupGo s.messages none

/-! ### `parse.go`: tool-usage analysis -/

/-- The Go `switch` on the tool name inside `AnalyzeConversation`'s block
loop. -/
def bumpStats (st : ToolStats) (b : ContentBlock) : ToolStats :=
  if b.type == "tool_use" then
    if b.name == "Bash" then { st with bashCount := st.bashCount + 1 }
    else if b.name == "Read" then { st with readCount := st.readCount + 1 }
    else if b.name == "Write" then { st with writeCount := st.writeCount + 1 }
    else if b.name == "Edit" || b.name == "MultiEdit" then
      { st with editCount := st.editCount + 1 }
    else if b.name == "Glob" then { st with globCount := st.globCount + 1 }
    else if b.name == "Grep" then { st with grepCount := st.grepCount + 1 }
    else { st with otherCount := st.otherCount + 1 }
  else st

/-- One step of `AnalyzeConversation`'s block loop: bump the counter bucket
and collect 300+-character text blocks. -/
def analyzeStep (acc : ToolStats × List String) (b : ContentBlock) :
    ToolStats × List String :=
  (bumpStats acc.1 b,
   if b.type == "text" && b.text.length ≥ 300 then acc.2 ++ [b.text] else acc.2)

/-- `AnalyzeConversation` from `parse.go`. -/
def AnalyzeConversation (conv : Conversation) : ToolStats × List String :=
  conv.messages.foldl (fun acc m => m.content.foldl analyzeStep acc) ({}, [])

/-! ### `parse.go`: tool-result text and git scanning -/

/-- `extractToolResultText` from `parse.go`: a string is taken verbatim; an
array contributes the `text` fields of its object elements, newline-joined;
anything else is empty. -/
def extractToolResultText (content : Option Json) : String :=
  match content with
  | some (.str s) => s
  | some (.arr items) =>
      String.intercalate "\n"
        (items.filterMap (fun it =>
          match it with
          | .obj kvs =>
              match jlookup kvs "text" with
              | some (.str t) => some t
              | _ => none
          | _ => none))
  | _ => ""

/-- `strings.Split(s, "\n")` on character lists. -/
def splitNl : List Char → List (List Char)
  | [] => [[]]
  | c :: rest =>
      if c = '\n' then [] :: splitNl rest
      else
        match splitNl rest with
        | h :: t => (c :: h) :: t
        | [] => [[c]]

/-! #### The `CommitPattern` regular expression

`CommitPattern` is (in RE2 syntax, leftmost-first match): a literal `[`, one
or more word, dash or slash characters, `\s+`, a capture of 7 or more
characters from `a-f0-9`, a literal `]`, `\s+`, and a capture `(.+)`.
Between `[`, the branch token, the whitespace run, the hex run and
`]` the character classes are pairwise disjoint at every boundary, so greedy
maximal munch is exactly the regex's backtracking semantics; the only
backtracking point is `\]\s+(.+)` when nothing follows the whitespace run,
where `\s+` gives one character back to `(.+)`.  `.` matches anything except
`\n`; the matcher is applied to lines produced by splitting on `\n`. -/

def isWordDashSlash (c : Char) : Bool :=
  ('a' ≤ c && c ≤ 'z') || ('A' ≤ c && c ≤ 'Z') || ('0' ≤ c && c ≤ '9') ||
  c = '_' || c = '-' || c = '/'

/-- RE2's `\s` is `[\t\n\f\r ]`. -/
def isGoSpace (c : Char) : Bool :=
  c = ' ' || c = '\t' || c = '\n' || c = '\x0c' || c = '\r'

def isHexLower (c : Char) : Bool :=
  ('0' ≤ c && c ≤ '9') || ('a' ≤ c && c ≤ 'f')

/-- Try to match `CommitPattern` at the head of `l`; return the two capture
groups (hash, message). -/
def commitAt (l : List Char) : Option (List Char × List Char) :=
  match l with
  | '[' :: rest =>
      let refSplit := rest.span isWordDashSlash
      if refSplit.1.isEmpty then none
      else
        let spSplit := refSplit.2.span isGoSpace
        if spSplit.1.isEmpty then none
        else
          let hexSplit := spSplit.2.span isHexLower
          if hexSplit.1.length < 7 then none
          else
            match hexSplit.2 with
            | ']' :: r4 =>
                let sp2 := r4.span isGoSpace
                if sp2.1.isEmpty then none
                else
                  match sp2.2 with
                  | m :: ms => some (hexSplit.1, (m :: ms).takeWhile (· ≠ '\n'))
                  | [] =>
                      match sp2.1.getLast? with
                      | some last =>
                          if sp2.1.length ≥ 2 && last ≠ '\n' then
                            some (hexSplit.1, [last])
                          else none
                      | none => none
            | _ => none
  | _ => none

/-- Leftmost match of `CommitPattern` (`FindStringSubmatch`). -/
def commitFind : List Char → Option (List Char × List Char)
  | [] => none
  | c :: rest =>
      match commitAt (c :: rest) with
      | some r => some r
      | none => commitFind rest

/-- `CommitPattern.FindStringSubmatch` on a Go string, returning
`(matches[1], matches[2])`. -/
def commitSubmatch (s : String) : Option (String × String) :=
  (commitFind s.data).map (fun p => (p.1.asString, p.2.asString))

/-- The commit records one `tool_result` block's text contributes: one per
line matched by `CommitPattern`, carrying the enclosing message's timestamp
and the two capture groups. -/
def commitItemsOfBlock (ts : Option String) (b : ContentBlock) : List IndexItem :=
  (splitNl (extractToolResultText b.content).data).filterMap
    (fun line =>
      (commitFind line).map (fun p =>
        { type := "commit", timestamp := ts,
          commitHash := p.1.asString,
          commitMessage := p.2.asString : IndexItem }))

/-- `ExtractCommits` from `parse.go` (the nested append loops). -/
def ExtractCommits (s : Session) : List IndexItem :=
  s.messages.foldl
    (fun acc m =>
      m.content.foldl
        (fun acc b =>
          if b.type == "tool_result" then acc ++ commitItemsOfBlock m.timestamp b
          else acc)
        acc)
    []

/-! #### The `GitHubRepoPattern` regular expression

`GitHubRepoPattern` is (RE2 syntax): literal `github.com`, one of `:` or `/`,
then a capture consisting of one or more non-slash characters, a slash, and a
lazy run of one or more characters that are neither slash nor whitespace;
then an optional literal `.git` (outside the capture) and finally whitespace
or end of text.  The owner part is one or more non-slash characters followed
by a mandatory slash, so greedy matching up to the next slash is exact; the
repo part is lazy, growing one character at a time, preferring to close with
the `.git` branch of the optional group first. -/

/-- Try to close the repo part: given the accumulated (reversed) repo
characters and the remaining input, decide whether the pattern can finish
here, extend otherwise. -/
def repoScan (owner : List Char) (repoRev : List Char) : List Char → Option (List Char)
  | [] =>
      if repoRev.isEmpty then none
      else some (owner ++ '/' :: repoRev.reverse)
  | c :: rest =>
      if !repoRev.isEmpty &&
          (((c :: rest).take 4 = ['.', 'g', 'i', 't']) &&
            (match (c :: rest).drop 4 with
             | [] => true
             | d :: _ => isGoSpace d)) then
        some (owner ++ '/' :: repoRev.reverse)
      else if !repoRev.isEmpty && isGoSpace c then
        some (owner ++ '/' :: repoRev.reverse)
      else if c ≠ '/' && !isGoSpace c then
        repoScan owner (c :: repoRev) rest
      else none

/-- Try to match `GitHubRepoPattern` at the head of `l`; return the capture
group. -/
def githubAt (l : List Char) : Option (List Char) :=
  if l.take 10 = "github.com".data then
    match l.drop 10 with
    | c :: r0 =>
        if c = ':' || c = '/' then
          let ownerSplit := r0.span (· ≠ '/')
          if ownerSplit.1.isEmpty then none
          else
            match ownerSplit.2 with
            | '/' :: r2 => repoScan ownerSplit.1 [] r2
            | _ => none
        else none
    | [] => none
  else none

/-- Leftmost match of `GitHubRepoPattern` (`FindStringSubmatch`), returning
`matches[1]`. -/
def githubFind : List Char → Option (List Char)
  | [] => none
  | c :: rest =>
      match githubAt (c :: rest) with
      | some r => some r
      | none => githubFind rest

/-- `GitHubRepoPattern.FindStringSubmatch` on a Go string, returning
`matches[1]`. -/
def githubSubmatch (s : String) : Option String :=
  (githubFind s.data).map List.asString

/-- `strings.TrimSuffix(s, ".git")`. -/
def trimDotGit (s : String) : String :=
  let d := s.data
  if d.length ≥ 4 && d.drop (d.length - 4) = ['.', 'g', 'i', 't'] then
    (d.take (d.length - 4)).asString
  else s

/-- The per-block body of `DetectGitHubRepo`'s loop. -/
def repoOfBlock (b : ContentBlock) : Option String :=
  if b.type == "tool_result" then
    (githubSubmatch (extractToolResultText b.content)).map
      (fun cap => "https://github.com/" ++ trimDotGit cap)
  else none

def detectBlocks : List ContentBlock → Option String
  | [] => none
  | b :: rest =>
      match repoOfBlock b with
      | some url => some url
      | none => detectBlocks rest

def detectMsgs : List Message → String
  | [] => ""
  | m :: rest =>
      match detectBlocks m.content with
      | some url => url
      | none => detectMsgs rest

/-- `DetectGitHubRepo` from `parse.go`: the first match in message order,
canonicalised; `""` when there is none. -/
def DetectGitHubRepo (s : Session) : String :=
  detectMsgs s.messages

/-! ### `discover.go`: search snippet extraction -/

/-- `strings.Contains`/`strings.Index` prefix test. -/
def startsWithChars : List Char → List Char → Bool
  | _, [] => true
  | [], _ :: _ => false
  | c :: cs, p :: ps => c = p && startsWithChars cs ps

/-- `strings.Index hay pat` (first occurrence; `0` for the empty pattern). -/
def firstIndexOf (pat : List Char) : List Char → Option Nat
  | [] => if pat.isEmpty then some 0 else none
  | c :: rest =>
      if startsWithChars (c :: rest) pat then some 0
      else (firstIndexOf pat rest).map (· + 1)

/-- One `strings.ReplaceAll(s, "  ", " ")` pass (non-overlapping, left to
right). -/
def replaceDouble : List Char → List Char
  | [] => []
  | [c] => [c]
  | c1 :: c2 :: rest =>
      if c1 = ' ' && c2 = ' ' then ' ' :: replaceDouble rest
      else c1 :: replaceDouble (c2 :: rest)

/-- `strings.Contains(s, "  ")`. -/
def hasDouble : List Char → Bool
  | [] => false
  | [_] => false
  | c1 :: c2 :: rest => (c1 = ' ' && c2 = ' ') || hasDouble (c2 :: rest)

theorem replaceDouble_length_le : ∀ s : List Char, (replaceDouble s).length ≤ s.length
  | [] => by simp [replaceDouble]
  | [c] => by simp [replaceDouble]
  | c1 :: c2 :: rest => by
      rw [replaceDouble]
      split
      · have := replaceDouble_length_le rest
        simp only [List.length_cons]
        omega
      · have := replaceDouble_length_le (c2 :: rest)
        simp only [List.length_cons] at *
        omega

theorem replaceDouble_length_lt :
    ∀ s : List Char, hasDouble s = true → (replaceDouble s).length < s.length
  | [], h => by simp [hasDouble] at h
  | [c], h => by simp [hasDouble] at h
  | c1 :: c2 :: rest, h => by
      rw [replaceDouble]
      rw [hasDouble] at h
      rcases Bool.or_eq_true_iff.mp h with h1 | h2
      · rw [if_pos h1]
        have := replaceDouble_length_le rest
        simp only [List.length_cons]
        omega
      · split
        · have := replaceDouble_length_le rest
          simp only [List.length_cons]
          omega
        · have := replaceDouble_length_lt (c2 :: rest) h2
          simp only [List.length_cons] at *
          omega

/-- The `for strings.Contains(snippet, "  ")` loop of `extractSnippet`. -/
def collapseLoop (s : List Char) : List Char :=
  if hasDouble s then collapseLoop (replaceDouble s) else s
termination_by s.length
decreasing_by exact replaceDouble_length_lt s (by assumption)

/-- `unicode.IsSpace` (the characters `strings.TrimSpace` trims; ASCII plus
the two Latin-1 spaces). -/
def isUniSpace (c : Char) : Bool :=
  c = ' ' || c = '\t' || c = '\n' || c = '\x0b' || c = '\x0c' || c = '\r' ||
  c = '\x85' || c = '\xa0'

/-- `strings.TrimSpace`. -/
def trimSpaceChars (s : List Char) : List Char :=
  ((s.dropWhile isUniSpace).reverse.dropWhile isUniSpace).reverse

/-- `extractSnippet` from `discover.go`. -/
def extractSnippet (text query : String) (contextChars : Nat) : String :=
  let tl := text.data.map Char.toLower
  let ql := query.data.map Char.toLower
  match firstIndexOf ql tl with
  | none => ""
  | some idx =>
      let start := idx - contextChars
      let stop := min (idx + query.data.length + contextChars) text.data.length
      let snip := (text.data.take stop).drop start
      let snip := snip.map (fun c => if c = '\n' then ' ' else c)
      let snip := snip.map (fun c => if c = '\t' then ' ' else c)
      let snip := collapseLoop snip
      let snip := trimSpaceChars snip
      ((if start > 0 then "...".data else []) ++ snip ++
        (if stop < text.data.length then "...".data else [])).asString

/-! ### Specification-side definitions and equivalence lemmas for snippets -/

/-- Structural collapse of space runs (the fixpoint the replace-until-done
loop of `extractSnippet` computes). -/
def collapseRuns : List Char → List Char
  | [] => []
  | [c] => [c]
  | c1 :: c2 :: rest =>
      if c1 = ' ' ∧ c2 = ' ' then collapseRuns (c2 :: rest)
      else c1 :: collapseRuns (c2 :: rest)

theorem collapseRuns_sp_sp (rest : List Char) :
    collapseRuns (' ' :: ' ' :: rest) = collapseRuns (' ' :: rest) := by
  rw [collapseRuns, if_pos ⟨rfl, rfl⟩]

theorem collapseRuns_ne (c1 c2 : Char) (rest : List Char) (h : ¬(c1 = ' ' ∧ c2 = ' ')) :
    collapseRuns (c1 :: c2 :: rest) = c1 :: collapseRuns (c2 :: rest) := by
  rw [collapseRuns, if_neg h]

theorem collapseRuns_of_no_double :
    ∀ s : List Char, hasDouble s = false → collapseRuns s = s
  | [], _ => rfl
  | [c], _ => rfl
  | c1 :: c2 :: rest, h => by
      rw [hasDouble] at h
      rcases Bool.or_eq_false_iff.mp h with ⟨h1, h2⟩
      rw [collapseRuns_ne c1 c2 rest (by simpa using h1)]
      rw [collapseRuns_of_no_double (c2 :: rest) h2]

theorem replaceDouble_cons (c : Char) (rest : List Char) :
    ∃ tl, replaceDouble (c :: rest) = c :: tl := by
  match rest with
  | [] => exact ⟨[], rfl⟩
  | c2 :: rt =>
      rw [replaceDouble]
      split
      · rename_i h
        exact ⟨replaceDouble rt, by simp_all⟩
      · exact ⟨replaceDouble (c2 :: rt), rfl⟩

theorem collapseRuns_replaceDouble :
    ∀ s : List Char, collapseRuns (replaceDouble s) = collapseRuns s
  | [] => rfl
  | [c] => rfl
  | c1 :: c2 :: rest => by
      rw [replaceDouble]
      split
      · rename_i h
        have e1 : c1 = ' ' := by simpa using (Bool.and_eq_true_iff.mp h).1
        have e2 : c2 = ' ' := by simpa using (Bool.and_eq_true_iff.mp h).2
        subst e1; subst e2
        rw [collapseRuns_sp_sp rest]
        match rest with
        | [] => rfl
        | r :: rt =>
            obtain ⟨tl, htl⟩ := replaceDouble_cons r rt
            have hrec : collapseRuns (r :: tl) = collapseRuns (r :: rt) := by
              rw [← htl]; exact collapseRuns_replaceDouble (r :: rt)
            rw [htl]
            by_cases hr : r = ' '
            · subst hr
              rw [collapseRuns_sp_sp tl, collapseRuns_sp_sp rt]
              simpa using hrec
            · rw [collapseRuns_ne ' ' r tl (by simp [hr]),
                  collapseRuns_ne ' ' r rt (by simp [hr]), hrec]
      · rename_i h
        have hne : ¬(c1 = ' ' ∧ c2 = ' ') := by
          intro hc; exact absurd (by simp [hc.1, hc.2]) h
        obtain ⟨tl, htl⟩ := replaceDouble_cons c2 rest
        have hrec : collapseRuns (c2 :: tl) = collapseRuns (c2 :: rest) := by
          rw [← htl]; exact collapseRuns_replaceDouble (c2 :: rest)
        rw [htl, collapseRuns_ne c1 c2 tl hne, collapseRuns_ne c1 c2 rest hne, hrec]

theorem collapseLoop_eq_runs (s : List Char) : collapseLoop s = collapseRuns s := by
  rw [collapseLoop]
  split
  · rw [collapseLoop_eq_runs (replaceDouble s)]
    exact collapseRuns_replaceDouble s
  · exact (collapseRuns_of_no_double s (by simp_all)).symm
termination_by s.length
decreasing_by exact replaceDouble_length_lt s (by assumption)

/-- The whitespace replacement the spec describes: newline and tab become
single spaces. -/
def collapseWsChar (c : Char) : Char :=
  if c = '\n' || c = '\t' then ' ' else c

/-- The snippet function exactly as the claim words it: the window of up to
`contextChars` characters around the first (case-insensitive) occurrence,
newline/tab replaced by spaces, space runs collapsed, ellipses added exactly
when the window does not reach the corresponding text boundary. -/
def snippetSpecLiteral (text query : String) (contextChars : Nat) : String :=
  match firstIndexOf (query.data.map Char.toLower) (text.data.map Char.toLower) with
  | none => ""
  | some idx =>
      let start := idx - contextChars
      let stop := min (idx + query.data.length + contextChars) text.data.length
      let core := collapseRuns (((text.data.take stop).drop start).map collapseWsChar)
      ((if start > 0 then "...".data else []) ++ core ++
        (if stop < text.data.length then "...".data else [])).asString

/-- `snippetSpecLiteral` amended with the trimming step the code performs:
leading and trailing whitespace of the collapsed window is removed before the
ellipses are attached. -/
def snippetSpecTrimmed (text query : String) (contextChars : Nat) : String :=
  match firstIndexOf (query.data.map Char.toLower) (text.data.map Char.toLower) with
  | none => ""
  | some idx =>
      let start := idx - contextChars
      let stop := min (idx + query.data.length + contextChars) text.data.length
      let core := trimSpaceChars (collapseRuns (((text.data.take stop).drop start).map collapseWsChar))
      ((if start > 0 then "...".data else []) ++ core ++
        (if stop < text.data.length then "...".data else [])).asString

/-! ### Lemmas about `GroupConversations` -/

theorem groupGo_length :
    ∀ (msgs : List Message) (cur : Option Conversation),
      (groupGo msgs cur).length =
        msgs.countP (fun m => m.role == "user") +
          (match cur with | some _ => 1 | none => 0)
  | [], none => by simp [groupGo, closeCur]
  | [], some c => by simp [groupGo, closeCur]
  | m :: rest, cur => by
      rw [groupGo]
      by_cases h : m.role = "user"
      · rw [if_pos h]
        rw [List.length_append, groupGo_length rest (some (newConv m))]
        rw [List.countP_cons]
        cases cur <;> (simp [h, closeCur]; try omega)
      · rw [if_neg h]
        rw [List.countP_cons]
        cases cur with
        | none => simp [Option.map_none', groupGo_length rest none, h]
        | some c => simp [Option.map_some', groupGo_length rest (some (appendConv c m)), h]

theorem groupGo_some_heads :
    ∀ (msgs : List Message) (c : Conversation), c.messages ≠ [] →
      (groupGo msgs (some c)).map (fun cv => cv.messages.head?) =
        c.messages.head? ::
          (msgs.filter (fun m => m.role == "user")).map (fun m => some (toEntry m))
  | [], c, _ => by simp [groupGo, closeCur]
  | m :: rest, c, hc => by
      rw [groupGo]
      by_cases h : m.role = "user"
      · rw [if_pos h]
        rw [List.map_append]
        rw [groupGo_some_heads rest (newConv m) (by simp [newConv])]
        simp [newConv, h, closeCur]
      · rw [if_neg h]
        rw [show (some c).map (fun c => appendConv c m) = some (appendConv c m) from rfl]
        rw [groupGo_some_heads rest (appendConv c m) (by simp [appendConv])]
        have hh : (appendConv c m).messages.head? = c.messages.head? := by
          cases hm : c.messages with
          | nil => exact absurd hm hc
          | cons a t => simp [appendConv, hm]
        simp [hh, h]

theorem groupGo_none_heads :
    ∀ msgs : List Message,
      (groupGo msgs none).map (fun cv => cv.messages.head?) =
        (msgs.filter (fun m => m.role == "user")).map (fun m => some (toEntry m))
  | [] => by simp [groupGo, closeCur]
  | m :: rest => by
      rw [groupGo]
      by_cases h : m.role = "user"
      · rw [if_pos h]
        rw [show closeCur none = [] from rfl, List.nil_append]
        rw [groupGo_some_heads rest (newConv m) (by simp [newConv])]
        simp [newConv, h]
      · rw [if_neg h]
        rw [show (none : Option Conversation).map (fun c => appendConv c m) = none from rfl]
        rw [groupGo_none_heads rest]
        simp [h]

/-- The concatenation of the conversations' message lists. -/
def joinMsgs (cs : List Conversation) : List MessageEntry :=
  (cs.map (fun c => c.messages)).flatten

theorem groupGo_some_join :
    ∀ (msgs : List Message) (c : Conversation),
      joinMsgs (groupGo msgs (some c)) = c.messages ++ msgs.map toEntry
  | [], c => by simp [groupGo, closeCur, joinMsgs]
  | m :: rest, c => by
      rw [groupGo]
      by_cases h : m.role = "user"
      · rw [if_pos h]
        have : joinMsgs (closeCur (some c) ++ groupGo rest (some (newConv m))) =
            c.messages ++ joinMsgs (groupGo rest (some (newConv m))) := by
          simp [joinMsgs, closeCur]
        rw [this, groupGo_some_join rest (newConv m)]
        simp [newConv]
      · rw [if_neg h]
        rw [show (some c).map (fun c => appendConv c m) = some (appendConv c m) from rfl]
        rw [groupGo_some_join rest (appendConv c m)]
        simp [appendConv]

theorem groupGo_none_join :
    ∀ msgs : List Message,
      joinMsgs (groupGo msgs none) =
        (msgs.dropWhile (fun m => !(m.role == "user"))).map toEntry
  | [] => by simp [groupGo, closeCur, joinMsgs]
  | m :: rest => by
      rw [groupGo]
      by_cases h : m.role = "user"
      · rw [if_pos h]
        rw [show closeCur none = [] from rfl, List.nil_append,
            groupGo_some_join rest (newConv m)]
        rw [List.dropWhile_cons]
        simp [newConv, h]
      · rw [if_neg h]
        rw [show (none : Option Conversation).map (fun c => appendConv c m) = none from rfl]
        rw [groupGo_none_join rest]
        rw [List.dropWhile_cons]
        simp [h]

/-- Well-formedness of a produced conversation: nonempty, anchored at a user
entry, with no further user entries. -/
def convOKb (c : Conversation) : Bool :=
  match c.messages with
  | [] => false
  | e :: rest => e.role == "user" && rest.all (fun x => !(x.role == "user"))

theorem groupGo_some_ok :
    ∀ (msgs : List Message) (c : Conversation), convOKb c = true →
      (groupGo msgs (some c)).all convOKb = true
  | [], c, hc => by simp [groupGo, closeCur, hc]
  | m :: rest, c, hc => by
      rw [groupGo]
      by_cases h : m.role = "user"
      · rw [if_pos h]
        rw [List.all_append]
        rw [groupGo_some_ok rest (newConv m) (by simp [convOKb, newConv, toEntry, h])]
        simp [closeCur, hc]
      · rw [if_neg h]
        rw [show (some c).map (fun c => appendConv c m) = some (appendConv c m) from rfl]
        apply groupGo_some_ok rest (appendConv c m)
        rw [convOKb] at hc
        cases hm : c.messages with
        | nil => rw [hm] at hc; simp at hc
        | cons e t =>
            rw [hm] at hc
            rcases Bool.and_eq_true_iff.mp hc with ⟨h1, h2⟩
            rw [convOKb]
            simp only [appendConv, hm, List.cons_append]
            rw [h1]
            simp [List.all_append, h2, toEntry, h]
  termination_by msgs _ _ => msgs.length

theorem groupGo_none_ok :
    ∀ msgs : List Message, (groupGo msgs none).all convOKb = true
  | [] => by simp [groupGo, closeCur]
  | m :: rest => by
      rw [groupGo]
      by_cases h : m.role = "user"
      · rw [if_pos h]
        rw [show closeCur none = [] from rfl, List.nil_append]
        exact groupGo_some_ok rest (newConv m) (by simp [convOKb, newConv, toEntry, h])
      · rw [if_neg h]
        rw [show (none : Option Conversation).map (fun c => appendConv c m) = none from rfl]
        exact groupGo_none_ok rest

/-! ### Lemmas about `AnalyzeConversation` -/

/-- All content blocks of a conversation, in iteration order. -/
def allBlocks (conv : Conversation) : List ContentBlock :=
  (conv.messages.map (fun m => m.content)).flatten

def pBash (b : ContentBlock) : Bool := b.type == "tool_use" && b.name == "Bash"
def pRead (b : ContentBlock) : Bool := b.type == "tool_use" && b.name == "Read"
def pWrite (b : ContentBlock) : Bool := b.type == "tool_use" && b.name == "Write"
def pEdit (b : ContentBlock) : Bool :=
  b.type == "tool_use" && (b.name == "Edit" || b.name == "MultiEdit")
def pGlob (b : ContentBlock) : Bool := b.type == "tool_use" && b.name == "Glob"
def pGrep (b : ContentBlock) : Bool := b.type == "tool_use" && b.name == "Grep"
def pOtherTool (b : ContentBlock) : Bool :=
  b.type == "tool_use" && !(b.name == "Bash") && !(b.name == "Read") &&
  !(b.name == "Write") && !(b.name == "Edit") && !(b.name == "MultiEdit") &&
  !(b.name == "Glob") && !(b.name == "Grep")

theorem bump_bash (st : ToolStats) (b : ContentBlock) :
    (bumpStats st b).bashCount = st.bashCount + (if pBash b then 1 else 0) := by
  unfold bumpStats pBash; split_ifs <;> simp_all

theorem bump_read (st : ToolStats) (b : ContentBlock) :
    (bumpStats st b).readCount = st.readCount + (if pRead b then 1 else 0) := by
  unfold bumpStats pRead; split_ifs <;> simp_all

theorem bump_write (st : ToolStats) (b : ContentBlock) :
    (bumpStats st b).writeCount = st.writeCount + (if pWrite b then 1 else 0) := by
  unfold bumpStats pWrite; split_ifs <;> simp_all

theorem bump_edit (st : ToolStats) (b : ContentBlock) :
    (bumpStats st b).editCount = st.editCount + (if pEdit b then 1 else 0) := by
  unfold bumpStats pEdit; split_ifs <;> simp_all

theorem bump_glob (st : ToolStats) (b : ContentBlock) :
    (bumpStats st b).globCount = st.globCount + (if pGlob b then 1 else 0) := by
  unfold bumpStats pGlob; split_ifs <;> simp_all

theorem bump_grep (st : ToolStats) (b : ContentBlock) :
    (bumpStats st b).grepCount = st.grepCount + (if pGrep b then 1 else 0) := by
  unfold bumpStats pGrep; split_ifs <;> simp_all

theorem bump_other (st : ToolStats) (b : ContentBlock) :
    (bumpStats st b).otherCount = st.otherCount + (if pOtherTool b then 1 else 0) := by
  unfold bumpStats pOtherTool; split_ifs <;> simp_all

/-- The per-field characterisation of the block fold. -/
theorem analyze_blocks_fields :
    ∀ (blocks : List ContentBlock) (acc : ToolStats × List String),
      (blocks.foldl analyzeStep acc).1.bashCount = acc.1.bashCount + blocks.countP pBash ∧
      (blocks.foldl analyzeStep acc).1.readCount = acc.1.readCount + blocks.countP pRead ∧
      (blocks.foldl analyzeStep acc).1.writeCount = acc.1.writeCount + blocks.countP pWrite ∧
      (blocks.foldl analyzeStep acc).1.editCount = acc.1.editCount + blocks.countP pEdit ∧
      (blocks.foldl analyzeStep acc).1.globCount = acc.1.globCount + blocks.countP pGlob ∧
      (blocks.foldl analyzeStep acc).1.grepCount = acc.1.grepCount + blocks.countP pGrep ∧
      (blocks.foldl analyzeStep acc).1.otherCount = acc.1.otherCount + blocks.countP pOtherTool
  | [], acc => by simp
  | b :: rest, acc => by
      obtain ⟨r1, r2, r3, r4, r5, r6, r7⟩ := analyze_blocks_fields rest (analyzeStep acc b)
      have hstep : (analyzeStep acc b).1 = bumpStats acc.1 b := rfl
      simp only [List.foldl_cons, List.countP_cons]
      refine ⟨?_, ?_, ?_, ?_, ?_, ?_, ?_⟩ <;>
        simp only [r1, r2, r3, r4, r5, r6, r7, hstep, bump_bash, bump_read, bump_write,
          bump_edit, bump_glob, bump_grep, bump_other] <;> omega

/-- The nested message/block fold equals the fold over the flattened blocks. -/
theorem analyze_msgs_flatten :
    ∀ (msgs : List MessageEntry) (acc : ToolStats × List String),
      msgs.foldl (fun acc m => m.content.foldl analyzeStep acc) acc =
        ((msgs.map (fun m => m.content)).flatten).foldl analyzeStep acc
  | [], acc => by simp
  | m :: rest, acc => by
      simp only [List.foldl_cons, List.map_cons, List.flatten_cons, List.foldl_append]
      exact analyze_msgs_flatten rest (m.content.foldl analyzeStep acc)

/-! ### Declarative characterisations of the scanning loops -/

theorem foldl_ite_append {α β : Type} (c : α → Bool) (g : α → List β) :
    ∀ (l : List α) (init : List β),
      l.foldl (fun acc x => if c x then acc ++ g x else acc) init =
        init ++ l.flatMap (fun x => if c x then g x else [])
  | [], init => by simp
  | x :: rest, init => by
      simp only [List.foldl_cons, List.flatMap_cons]
      by_cases h : c x
      · rw [if_pos h, if_pos h, foldl_ite_append c g rest (init ++ g x)]
        simp
      · rw [if_neg h, if_neg h, foldl_ite_append c g rest init]
        simp

theorem extractCommits_decl :
    ∀ (msgs : List Message) (init : List IndexItem),
      msgs.foldl
        (fun acc m =>
          m.content.foldl
            (fun acc b =>
              if b.type == "tool_result" then acc ++ commitItemsOfBlock m.timestamp b
              else acc)
            acc)
        init =
      init ++ msgs.flatMap
        (fun m => m.content.flatMap
          (fun b => if b.type == "tool_result" then commitItemsOfBlock m.timestamp b else []))
  | [], init => by simp
  | m :: rest, init => by
      simp only [List.foldl_cons, List.flatMap_cons]
      rw [foldl_ite_append (fun b => b.type == "tool_result") (commitItemsOfBlock m.timestamp)
            m.content init]
      rw [extractCommits_decl rest _]
      simp

theorem findSome?_append {α β : Type} (f : α → Option β) :
    ∀ l1 l2 : List α,
      List.findSome? f (l1 ++ l2) =
        match List.findSome? f l1 with
        | some x => some x
        | none => List.findSome? f l2
  | [], l2 => by simp
  | x :: rest, l2 => by
      simp only [List.cons_append, List.findSome?]
      cases f x with
      | some v => rfl
      | none => exact findSome?_append f rest l2

theorem detectBlocks_decl (blocks : List ContentBlock) :
    detectBlocks blocks = blocks.findSome? repoOfBlock := by
  induction blocks with
  | nil => rfl
  | cons b rest ih =>
      rw [detectBlocks, List.findSome?]
      cases repoOfBlock b with
      | some v => rfl
      | none => exact ih

theorem detectMsgs_decl :
    ∀ msgs : List Message,
      detectMsgs msgs =
        ((msgs.flatMap (fun m => m.content)).findSome? repoOfBlock).getD ""
  | [] => by simp [detectMsgs]
  | m :: rest => by
      rw [detectMsgs, detectBlocks_decl]
      simp only [List.flatMap_cons]
      rw [findSome?_append]
      cases List.findSome? repoOfBlock m.content with
      | some v => rfl
      | none => exact detectMsgs_decl rest

/-! ### Lemmas about the parse pipeline -/

/-- Whether a message's raw content parses (`parseContent` succeeds). -/
def okContent (m : Message) : Bool :=
  match parseContent m.rawContent with
  | .ok _ => true
  | .error _ => false

/-- The message a line contributes when the whole pipeline accepts it:
the line parses as JSON, unmarshals into a message, has an acceptable `type`,
and its content parses. -/
def lineMsgOfDecoded : Option Message → Option Message
  | none => none
  | some m =>
      if (m.type = "" || m.type = "message") && okContent m then some m else none

def lineMsg? : JLine → Option Message
  | .blank => none
  | .badJson _ => none
  | .json j => lineMsgOfDecoded (decodeMessage j)

/-- A well-formed message line. -/
def lineGood (l : JLine) : Bool := (lineMsg? l).isSome

/-- A malformed line: blank, not JSON, or not unmarshallable into a message
object.  `parseJSONL` skips these silently. -/
def lineSkip : JLine → Bool
  | .blank => true
  | .badJson _ => true
  | .json j => (decodeMessage j).isNone

/-- The value `finishMsg` produces when the content parses. -/
def finishedMsg (tparse : String → Option String) (m : Message) : Message :=
  { m with
    timestamp := if m.rawTimestamp ≠ "" then tparse m.rawTimestamp else none,
    content := match parseContent m.rawContent with | .ok c => c | .error _ => [] }

theorem finishMsg_of_ok (tparse : String → Option String) (m : Message)
    (h : okContent m = true) : finishMsg tparse m = .ok (finishedMsg tparse m) := by
  unfold okContent at h
  unfold finishMsg finishedMsg
  cases hp : parseContent m.rawContent with
  | error e => rw [hp] at h; simp at h
  | ok c => rfl

theorem lineMsg?_okContent {l : JLine} {m : Message} (h : lineMsg? l = some m) :
    okContent m = true := by
  cases l with
  | blank => simp [lineMsg?] at h
  | badJson c => simp [lineMsg?] at h
  | json j =>
      simp only [lineMsg?] at h
      cases hd : decodeMessage j with
      | none => rw [hd] at h; simp [lineMsgOfDecoded] at h
      | some m0 =>
          rw [hd] at h
          simp only [lineMsgOfDecoded] at h
          by_cases hc : ((m0.type = "" || m0.type = "message") && okContent m0) = true
          · rw [if_pos hc] at h
            cases h
            exact (Bool.and_eq_true_iff.mp hc).2
          · rw [if_neg hc] at h; simp at h

theorem parseMessages_all_ok (tparse : String → Option String) :
    ∀ msgs : List Message, (∀ m ∈ msgs, okContent m = true) →
      parseMessages tparse msgs = .ok (msgs.map (finishedMsg tparse))
  | [], _ => rfl
  | m :: rest, h => by
      rw [parseMessages]
      rw [finishMsg_of_ok tparse m (h m (by simp))]
      rw [parseMessages_all_ok tparse rest (fun x hx => h x (by simp [hx]))]
      simp

theorem collectMsgs_of_dichotomy :
    ∀ lines : List JLine, (∀ l ∈ lines, (lineGood l || lineSkip l) = true) →
      collectMsgs lines = lines.filterMap lineMsg?
  | [], _ => rfl
  | l :: rest, h => by
      have hrest := collectMsgs_of_dichotomy rest (fun x hx => h x (by simp [hx]))
      cases l with
      | blank => simpa [collectMsgs, lineMsg?] using hrest
      | badJson c => simpa [collectMsgs, lineMsg?] using hrest
      | json j =>
          rw [List.filterMap_cons]
          rw [collectMsgs]
          cases hd : decodeMessage j with
          | none => simp [lineMsg?, lineMsgOfDecoded, acceptMsg, hd, hrest]
          | some m =>
              simp only [acceptMsg]
              by_cases hty : (m.type ≠ "" && m.type ≠ "message") = true
              · rw [if_pos hty]
                have hor : (m.type = "" || m.type = "message") = false := by
                  rcases Bool.and_eq_true_iff.mp hty with ⟨t1, t2⟩
                  have e1 : ¬(m.type = "") := by simpa using t1
                  have e2 : ¬(m.type = "message") := by simpa using t2
                  simp [e1, e2]
                have hmsg : lineMsg? (JLine.json j) = none := by
                  simp only [lineMsg?, hd, lineMsgOfDecoded]
                  rw [hor]
                  simp
                simp [hmsg, hrest]
              · rw [if_neg hty]
                have hsk : lineSkip (JLine.json j) = false := by simp [lineSkip, hd]
                have hgood : lineGood (JLine.json j) = true := by
                  rcases Bool.or_eq_true_iff.mp (h (JLine.json j) (by simp)) with hg | hs
                  · exact hg
                  · rw [hsk] at hs; cases hs
                have hmsg : lineMsg? (JLine.json j) = some m := by
                  unfold lineGood at hgood
                  simp only [lineMsg?, hd, lineMsgOfDecoded] at hgood ⊢
                  by_cases hc : ((m.type = "" || m.type = "message") && okContent m) = true
                  · rw [if_pos hc]
                  · rw [if_neg hc] at hgood; simp at hgood
                simp [hmsg, hrest]

theorem length_filterMap_eq_countP {α β : Type} (f : α → Option β) :
    ∀ l : List α, (l.filterMap f).length = l.countP (fun x => (f x).isSome)
  | [] => rfl
  | x :: rest => by
      rw [List.filterMap_cons, List.countP_cons]
      cases hf : f x with
      | none => simp [hf, length_filterMap_eq_countP f rest]
      | some v => simp [hf, length_filterMap_eq_countP f rest]

theorem countP_zero_of_all_blank :
    ∀ lines : List JLine, lines.all JLine.isBlank = true →
      lines.countP JLine.startsBrace = 0
  | [], _ => rfl
  | l :: rest, h => by
      have h1 : l.isBlank = true := List.all_eq_true.mp h l (by simp)
      have h2 : rest.all JLine.isBlank = true := by
        rw [List.all_eq_true]
        intro x hx
        exact List.all_eq_true.mp h x (by simp [hx])
      rw [List.countP_cons]
      cases l with
      | blank => simp [JLine.startsBrace, countP_zero_of_all_blank rest h2]
      | badJson c => simp [JLine.isBlank] at h1
      | json j => simp [JLine.isBlank] at h1

theorem isJSONL_not_all_blank {lines : List JLine} {whole : Option Json}
    (h : isJSONL lines whole = true) : lines.all JLine.isBlank = false := by
  by_contra hc
  have hb : lines.all JLine.isBlank = true := by
    cases hv : lines.all JLine.isBlank
    · exact absurd hv hc
    · rfl
  have hfind : lines.find? (fun l => !l.isBlank) = none := by
    rw [List.find?_eq_none]
    intro x hx
    have := List.all_eq_true.mp hb x hx
    simp [this]
  rw [isJSONL, hfind] at h
  rw [countP_zero_of_all_blank lines hb] at h
  simp at h

/-! ### Error characterisation of `parseJSON` -/

def isErr {α : Type} : Except Unit α → Bool
  | .error _ => true
  | .ok _ => false

theorem parseMessages_err (tparse : String → Option String) :
    ∀ msgs : List Message, isErr (parseMessages tparse msgs) = !msgs.all okContent
  | [] => rfl
  | m :: rest => by
      rw [parseMessages, List.all_cons]
      cases hp : parseContent m.rawContent with
      | error e =>
          have hf : finishMsg tparse m = .error e := by rw [finishMsg, hp]
          have hoc : okContent m = false := by rw [okContent, hp]
          rw [hf, hoc]
          simp [isErr]
      | ok c =>
          have hoc : okContent m = true := by rw [okContent, hp]
          rw [finishMsg_of_ok tparse m hoc, hoc]
          have ih := parseMessages_err tparse rest
          cases hr : parseMessages tparse rest with
          | error e =>
              rw [hr] at ih
              have hall : rest.all okContent = false := by
                cases hv : rest.all okContent
                · rfl
                · rw [hv] at ih; simp [isErr] at ih
              rw [hall]
              simp [isErr]
          | ok ms =>
              rw [hr] at ih
              have hall : rest.all okContent = true := by
                cases hv : rest.all okContent
                · rw [hv] at ih; simp [isErr] at ih
                · rfl
              rw [hall]
              simp [isErr]

/-- The error condition of the bare-array fallback. -/
def c3ArrBad (j : Json) : Bool :=
  match decodeMessageArray j with
  | none => true
  | some ms => !ms.all okContent

/-- When `parseJSON` errors, per the amended claim: the input is not valid
JSON; or the object shape yields zero messages (or fails) and the bare-array
decode fails or yields a message with unparseable content; or the object
shape yields messages one of which has unparseable content. -/
def c3ErrSpec (w : Option Json) : Bool :=
  match w with
  | none => true
  | some j =>
      match decodeSessionObj j with
      | some [] => c3ArrBad j
      | some (m :: ms) => !(m :: ms).all okContent
      | none => c3ArrBad j

theorem isErr_wrap (e : Except Unit (List Message)) :
    isErr (match e with
           | .error er => (.error er : Except Unit Session)
           | .ok ms => .ok { messages := ms }) = isErr e := by
  cases e <;> rfl

theorem parseJSON_err_char (tparse : String → Option String) (w : Option Json) :
    isErr (parseJSON tparse w) = c3ErrSpec w := by
  cases w with
  | none => rfl
  | some j =>
      simp only [parseJSON, c3ErrSpec]
      cases hso : decodeSessionObj j with
      | none =>
          cases ha : decodeMessageArray j with
          | none => simp [c3ArrBad, ha, isErr]
          | some ms =>
              rw [isErr_wrap, parseMessages_err]
              simp [c3ArrBad, ha]
      | some msgs =>
          cases msgs with
          | nil =>
              simp only [List.isEmpty_nil]
              rw [if_pos trivial]
              cases ha : decodeMessageArray j with
              | none => simp [c3ArrBad, ha, isErr]
              | some ms =>
                  rw [isErr_wrap, parseMessages_err]
                  simp [c3ArrBad, ha]
          | cons m ms =>
              simp only [List.isEmpty_cons]
              rw [if_neg (by simp)]
              rw [isErr_wrap, parseMessages_err]

/-! ### Concrete inputs used by the claim theorems -/

/-- A time parser that always fails (legal instance of the abstracted
RFC3339 parser; the claims hold for every parser). -/
def tp0 : String → Option String := fun _ => none

/-- A nested-dialect JSONL entry: session metadata at the top level plus the
nested `message` object. -/
def nestedLine : Json :=
  Json.obj [("message", Json.obj [("role", Json.str "assistant"),
                                  ("content", Json.str "Hello")])]

/-- The nested object `nestedLine` carries. -/
def nestedInner : NestedMessage :=
  { role := "assistant", rawContent := some (Json.str "Hello") }

/-- The message `parseJSONL` actually produces from `nestedLine`: every
normalized field (`role`, `content`, `model`, `usage`) is left at its zero
value; only the raw `nestedMessage` field is populated. -/
def nestedResultMsg : Message := { nestedMessage := some nestedInner }

/-- A flat-dialect user entry. -/
def exFlatUser : Json :=
  Json.obj [("role", Json.str "user"), ("content", Json.str "hi")]

/-- The message `exFlatUser` decodes and finishes to. -/
def exFlatUserMsg : Message :=
  { role := "user", content := [{ type := "text", text := "hi" }],
    rawContent := some (Json.str "hi") }

/-- The JSON object `{"messages": []}`. -/
def emptyMsgsObj : Json := Json.obj [("messages", Json.arr [])]

/-! ### Claim theorems -/

/-- Claim C1 (code bug): the spec requires the nested dialect to be
normalized into the same `Message` representation as the flat dialect, but
`parseMessages` never reads `NestedMessage`: decoding the nested entry
`{"message":{"role":"assistant","content":"Hello"}}` yields a message whose
`role` is `""` and whose `content` is empty, while the nested object's role
is `"assistant"` — nothing is hoisted. -/
theorem c1_nested_dialect_ignored :
    parseJSONL tp0 [JLine.json nestedLine] = .ok { messages := [nestedResultMsg] } ∧
    nestedResultMsg.role = "" ∧ nestedResultMsg.content = [] ∧
    nestedInner.role = "assistant" ∧ nestedResultMsg.role ≠ nestedInner.role :=
  ⟨rfl, rfl, rfl, rfl, by decide⟩

/-- Claim C9: empty (or all-whitespace) input parses to a session with zero
messages and no error. -/
theorem c9_empty_input (tparse : String → Option String) (d : RawData)
    (h : d.lines.all JLine.isBlank = true) : Parse tparse d = .ok {} := by
  rw [Parse, if_pos h]

/-- Witness for C9 at the empty byte string (one blank line, no JSON value). -/
theorem c9_empty_input_witness :
    ([JLine.blank] : List JLine).all JLine.isBlank = true ∧
    Parse tp0 ⟨[JLine.blank], none⟩ = .ok {} :=
  ⟨by decide, c9_empty_input tp0 ⟨[JLine.blank], none⟩ (by decide)⟩

/-- Counterexample to Claim C3 as stated: `{"messages": []}` is valid JSON in
the `{messages: [...]}` shape (the session-object unmarshal succeeds), yet
`parseJSON` returns an error, because zero messages sends it to the
bare-array fallback, which cannot decode an object. -/
theorem c3_json_error_counterexample :
    decodeSessionObj emptyMsgsObj = some [] ∧
    parseJSON tp0 (some emptyMsgsObj) = .error () :=
  ⟨rfl, rfl⟩

/-- Claim C3, amended: `parseJSON` tries the object shape, falls back to the
bare array when that yields zero messages, and errors exactly when the input
is not valid JSON, or the fallback array decode fails (even for a valid
object such as `{"messages": []}`), or a decoded message's content is neither
absent, null, a string, nor an array of content blocks.  The two positive
conjuncts show both shapes decoding successfully. -/
theorem c3_json_error_amended :
    (∀ (tparse : String → Option String) (w : Option Json),
        isErr (parseJSON tparse w) = c3ErrSpec w) ∧
    parseJSON tp0 (some (Json.obj [("messages", Json.arr [exFlatUser])])) =
      .ok { messages := [exFlatUserMsg] } ∧
    parseJSON tp0 (some (Json.arr [exFlatUser])) = .ok { messages := [exFlatUserMsg] } :=
  ⟨parseJSON_err_char, rfl, rfl⟩

/-- Claim C2: any input classified as JSONL whose every line is either a
well-formed message line (`lineGood`) or a malformed/skippable line
(`lineSkip`) parses successfully into exactly the well-formed lines'
messages, in input order; the message count equals the number of well-formed
lines. -/
theorem c2_jsonl_skip_malformed (tparse : String → Option String) (d : RawData)
    (h1 : isJSONL d.lines d.whole = true)
    (h2 : d.lines.all (fun l => lineGood l || lineSkip l) = true) :
    Parse tparse d =
      .ok { messages := (d.lines.filterMap lineMsg?).map (finishedMsg tparse) } ∧
    ((d.lines.filterMap lineMsg?).map (finishedMsg tparse)).length =
      d.lines.countP lineGood := by
  have hdich : ∀ l ∈ d.lines, (lineGood l || lineSkip l) = true := List.all_eq_true.mp h2
  constructor
  · rw [Parse]
    rw [if_neg (by simp [isJSONL_not_all_blank h1])]
    rw [if_pos h1]
    rw [parseJSONL]
    rw [collectMsgs_of_dichotomy d.lines hdich]
    rw [parseMessages_all_ok tparse _ (fun m hm => by
      rcases List.mem_filterMap.mp hm with ⟨l, _, hl⟩
      exact lineMsg?_okContent hl)]
  · rw [List.length_map, length_filterMap_eq_countP]
    rfl

/-- A JSONL input for the C2 witness: two good lines around one line that is
not valid JSON. -/
def exJsonl : RawData :=
  ⟨[JLine.json (Json.obj [("role", Json.str "user"), ("content", Json.str "hello")]),
    JLine.badJson 'x',
    JLine.json (Json.obj [("role", Json.str "assistant"), ("content", Json.str "hi")])],
   none⟩

def exJsonlMsg1 : Message :=
  { role := "user", content := [{ type := "text", text := "hello" }],
    rawContent := some (Json.str "hello") }

def exJsonlMsg2 : Message :=
  { role := "assistant", content := [{ type := "text", text := "hi" }],
    rawContent := some (Json.str "hi") }

/-- Witness for C2: the malformed middle line is skipped, the two good lines
survive in order. -/
theorem c2_jsonl_skip_malformed_witness :
    isJSONL exJsonl.lines exJsonl.whole = true ∧
    exJsonl.lines.all (fun l => lineGood l || lineSkip l) = true ∧
    Parse tp0 exJsonl = .ok { messages := [exJsonlMsg1, exJsonlMsg2] } :=
  ⟨by decide, by decide,
   ((c2_jsonl_skip_malformed tp0 exJsonl (by decide) (by decide)).1).trans rfl⟩

/-- A message carrying only a role (all other fields zero), and the concrete
session of Claim C4's example. -/
def roleMsg (r : String) : Message := { role := r }

def ex45 : Session :=
  { messages := [roleMsg "user", roleMsg "assistant", roleMsg "user",
                 roleMsg "assistant", roleMsg "assistant"] }

/-- Claim C4: grouping produces exactly one conversation per user-role
message, each anchored at that user message (in order), and the
`[user, assistant, user, assistant, assistant]` example yields two
conversations of sizes 2 and 3. -/
theorem c4_conversation_grouping :
    (∀ s : Session,
      (GroupConversations s).length = s.messages.countP (fun m => m.role == "user")) ∧
    (∀ s : Session,
      (GroupConversations s).map (fun c => c.messages.head?) =
        (s.messages.filter (fun m => m.role == "user")).map (fun m => some (toEntry m))) ∧
    (GroupConversations ex45).map (fun c => c.messages.length) = [2, 3] := by
  refine ⟨fun s => ?_, fun s => groupGo_none_heads s.messages, by decide⟩
  rw [GroupConversations]
  simpa using groupGo_length s.messages none

/-- Claim C10: grouping partitions the suffix of the message list starting at
the first user message — the concatenation of the conversations' entries
equals that suffix — and every conversation starts with a user entry and
contains no other user entry. -/
theorem c10_group_partition (s : Session) :
    joinMsgs (GroupConversations s) =
      (s.messages.dropWhile (fun m => !(m.role == "user"))).map toEntry ∧
    (GroupConversations s).all convOKb = true :=
  ⟨groupGo_none_join s.messages, groupGo_none_ok s.messages⟩

/-- The concrete session of Claim C5's example: one message whose
`tool_result` text holds one matching and one non-matching line. -/
def ex5 : Session :=
  { messages := [{ timestamp := some "2024-01-15T10:00:00Z",
                   content := [{ type := "tool_result",
                                 content := some (Json.str
                                   "[main abc1234] Initial commit\n[main abc] Too short hash") }] }] }

def ex5Item : IndexItem :=
  { type := "commit", timestamp := some "2024-01-15T10:00:00Z",
    commitHash := "abc1234", commitMessage := "Initial commit" }

/-- Claim C5: commit extraction scans every `tool_result` block's text line
by line and produces one record per `CommitPattern` match, carrying the two
capture groups and the enclosing message's timestamp; the 7-hex-digit
example matches, the 3-hex-digit example does not. -/
theorem c5_commit_extraction :
    (∀ s : Session, ExtractCommits s =
        s.messages.flatMap (fun m => m.content.flatMap
          (fun b => if b.type == "tool_result" then commitItemsOfBlock m.timestamp b
                    else []))) ∧
    commitSubmatch "[main abc1234] Initial commit" = some ("abc1234", "Initial commit") ∧
    commitSubmatch "[main abc] Too short hash" = none ∧
    ExtractCommits ex5 = [ex5Item] := by
  refine ⟨fun s => ?_, by decide, by decide, rfl⟩
  rw [ExtractCommits, extractCommits_decl s.messages []]
  simp

/-- Concrete sessions for Claim C6. -/
def ex6Block (t : String) : ContentBlock :=
  { type := "tool_result", content := some (Json.str t) }

def ex6a : Session :=
  { messages := [{ content := [ex6Block "origin git@github.com:user/repo.git (fetch)"] }] }

def ex6b : Session :=
  { messages := [{ content := [ex6Block "https://github.com/user/repo.git"] }] }

def ex6c : Session :=
  { messages := [{ content := [ex6Block "gitlab.com/user/repo"] }] }

/-- Claim C6: repository detection returns the first `GitHubRepoPattern`
match over the tool-result blocks in message order, canonicalised to
`https://github.com/<owner>/<repo>` with a trailing `.git` trimmed; both SSH
and HTTPS remotes canonicalise identically, non-GitHub hosts do not match,
and the empty string (not an error) results when nothing matches. -/
theorem c6_repo_detection :
    (∀ s : Session, DetectGitHubRepo s =
        ((s.messages.flatMap (fun m => m.content)).findSome? repoOfBlock).getD "") ∧
    githubSubmatch "git@github.com:user/repo.git" = some "user/repo" ∧
    githubSubmatch "https://github.com/user/repo.git" = some "user/repo" ∧
    githubSubmatch "gitlab.com/user/repo" = none ∧
    DetectGitHubRepo ex6a = "https://github.com/user/repo" ∧
    DetectGitHubRepo ex6b = "https://github.com/user/repo" ∧
    DetectGitHubRepo ex6c = "" ∧
    DetectGitHubRepo ({} : Session) = "" :=
  ⟨fun s => detectMsgs_decl s.messages, by decide, by decide, by decide,
   rfl, rfl, rfl, rfl⟩

/-- A `tool_use` block with the given tool name, and Claim C8's example
conversation. -/
def toolUseB (n : String) : ContentBlock := { type := "tool_use", name := n }

def ex8 : Conversation :=
  { messages := [{ role := "assistant",
                   content := [toolUseB "Bash", toolUseB "Read",
                               toolUseB "Bash", toolUseB "Write"] }] }

/-- Claim C8: tool-usage analysis counts every `tool_use` block into exactly
one bucket by name (`Edit` and `MultiEdit` share the edit bucket, unknown
names go to `other`), and the `Bash, Read, Bash, Write` example yields
counts 2/1/1 with every other counter zero. -/
theorem c8_tool_stats :
    (∀ conv : Conversation,
      (AnalyzeConversation conv).1.bashCount = (allBlocks conv).countP pBash ∧
      (AnalyzeConversation conv).1.readCount = (allBlocks conv).countP pRead ∧
      (AnalyzeConversation conv).1.writeCount = (allBlocks conv).countP pWrite ∧
      (AnalyzeConversation conv).1.editCount = (allBlocks conv).countP pEdit ∧
      (AnalyzeConversation conv).1.globCount = (allBlocks conv).countP pGlob ∧
      (AnalyzeConversation conv).1.grepCount = (allBlocks conv).countP pGrep ∧
      (AnalyzeConversation conv).1.otherCount = (allBlocks conv).countP pOtherTool) ∧
    AnalyzeConversation ex8 = ({ bashCount := 2, readCount := 1, writeCount := 1 }, []) := by
  constructor
  · intro conv
    rw [AnalyzeConversation, analyze_msgs_flatten]
    simpa [allBlocks] using
      analyze_blocks_fields ((conv.messages.map (fun m => m.content)).flatten) ({}, [])
  · rfl

/-- Counterexample to Claim C7 as stated: on the text `" burrito"` (leading
space) with query `"burrito"`, the claimed pipeline — window, newline/tab
replacement, space-run collapsing, boundary ellipses — yields `" burrito"`,
but `extractSnippet` additionally trims surrounding whitespace and returns
`"burrito"`. -/
theorem c7_snippet_counterexample :
    firstIndexOf ("burrito".data.map Char.toLower) (" burrito".data.map Char.toLower) =
      some 1 ∧
    extractSnippet " burrito" "burrito" 60 = "burrito" ∧
    snippetSpecLiteral " burrito" "burrito" 60 = " burrito" ∧
    extractSnippet " burrito" "burrito" 60 ≠ snippetSpecLiteral " burrito" "burrito" 60 := by
  have h1 : extractSnippet " burrito" "burrito" 60 = "burrito" := by
    simp only [extractSnippet, collapseLoop_eq_runs]
    decide
  have h2 : snippetSpecLiteral " burrito" "burrito" 60 = " burrito" := by decide
  exact ⟨by decide, h1, h2, by rw [h1, h2]; decide⟩

/-- Claim C7, amended: `extractSnippet` equals the claimed pipeline with one
additional step — the collapsed window is trimmed of leading and trailing
whitespace before the ellipses are attached (`snippetSpecTrimmed`). -/
theorem c7_snippet_amended (text query : String) (contextChars : Nat) :
    extractSnippet text query contextChars = snippetSpecTrimmed text query contextChars := by
  simp only [extractSnippet, snippetSpecTrimmed]
  cases h : firstIndexOf (query.data.map Char.toLower) (text.data.map Char.toLower) with
  | none => rfl
  | some idx =>
      have hf : ((fun c => if c = '\t' then ' ' else c) ∘ fun c => if c = '\n' then ' ' else c) =
          collapseWsChar := by
        funext c
        by_cases h1 : c = '\n'
        · subst h1; simp [collapseWsChar]
        · by_cases h2 : c = '\t'
          · subst h2; simp [collapseWsChar]
          · simp [collapseWsChar, Function.comp, h1, h2]
      simp only [collapseLoop_eq_runs, List.map_map, hf]
